import Mathlib

set_option maxRecDepth 65536

/-!
Verification of the news-harvester program (marca_harvester.py).

Strings are modelled with Lean `String` (a wrapper around `List Char`);
character-level helpers are defined on `List Char` so that every
definition evaluates by kernel reduction.  Machine floats of the source
are modelled as exact rationals (`ℚ`); network fetches are modelled as
explicit input values.
-/

/-! ## Character-list string utilities (models of Python string primitives) -/

/-- Model of `str.strip()` restricted to ASCII whitespace (the source only
meets ASCII whitespace in the fields it strips). -/
def stripWs (l : List Char) : List Char :=
  ((l.dropWhile Char.isWhitespace).reverse.dropWhile Char.isWhitespace).reverse

/-- Model of `str.strip()` at `String` level. -/
def strTrim (s : String) : String := ⟨stripWs s.data⟩

/-- Model of `str.lower()` restricted to ASCII letters (the marker phrases
compared in the source are ASCII). -/
def lowerStr (s : String) : String := ⟨s.data.map Char.toLower⟩

/-- Model of `str.startswith`. -/
def strStartsWith (s p : String) : Bool := p.data.isPrefixOf s.data

/-- Substring occurrence test on character lists, the model of Python's
`needle in hay`. -/
def hasSub (p : List Char) : List Char → Bool
  | [] => p.isEmpty
  | c :: rest => p.isPrefixOf (c :: rest) || hasSub p rest

/-- Model of Python `p in s` for strings. -/
def pyIn (p s : String) : Bool := hasSub p.data s.data

/-- Model of `needle in hay` with the haystack first (used for keyword
matching `k in norm(...)`). -/
def strContains (hay needle : String) : Bool := hasSub needle.data hay.data

/-- Leftmost occurrence of `p` in a character list: returns the part
before the first occurrence and the part after it. -/
def splitFirst (p : List Char) : List Char → Option (List Char × List Char)
  | [] => none
  | c :: rest =>
    if p.isPrefixOf (c :: rest) && !p.isEmpty then
      some ([], rest.drop (p.length - 1))
    else
      (splitFirst p rest).map (fun ab => (c :: ab.1, ab.2))

/-- Model of `str.replace(old, new)`: replaces every non-overlapping
occurrence, scanning left to right. -/
def replaceAll (p r : List Char) : List Char → List Char
  | [] => []
  | c :: rest =>
    if p.isPrefixOf (c :: rest) && !p.isEmpty then
      r ++ replaceAll p r (rest.drop (p.length - 1))
    else
      c :: replaceAll p r rest
termination_by l => l.length
decreasing_by
  · simp only [List.length_cons, List.length_drop]
    omega
  · simp only [List.length_cons]
    omega

/-- Model of `str.replace` at `String` level. -/
def pyReplace (s old new : String) : String := ⟨replaceAll old.data new.data s.data⟩

/-- `splitFirst` at `String` level. -/
def splitFirstStr (p s : String) : Option (String × String) :=
  (splitFirst p.data s.data).map (fun ab => (⟨ab.1⟩, ⟨ab.2⟩))

/-- Model of `", ".join` / `"\n".join`: `sep.join(parts)`. -/
def strIntercalate (sep : String) : List String → String
  | [] => ""
  | [x] => x
  | x :: rest => x ++ sep ++ strIntercalate sep rest

/-- Model of a single-character `str.split(sep)` step (accumulator is the
current field, reversed). -/
def splitOnCharAux (sep : Char) : List Char → List Char → List (List Char)
  | cur, [] => [cur.reverse]
  | cur, c :: rest =>
    if c = sep then cur.reverse :: splitOnCharAux sep [] rest
    else splitOnCharAux sep (c :: cur) rest

/-- Split a character list on a separator character (Python `s.split(sep)`
semantics for a one-character separator). -/
def splitOnChar (sep : Char) (l : List Char) : List (List Char) := splitOnCharAux sep [] l

/-- Numeric value of a list of decimal digit characters. -/
def digitsVal (l : List Char) : Nat := l.foldl (fun a c => 10 * a + (c.toNat - 48)) 0

/-- Zero-padded decimal rendering of a natural number to width `w`. -/
def pad (w n : Nat) : String :=
  let s := toString n
  ⟨List.replicate (w - s.length) '0' ++ s.data⟩

/-! ## Model of `float()` (CPython numeric string parsing)

`pyFloat` models CPython `float(s)` on the standard decimal grammar:
optional surrounding whitespace, optional sign, a mantissa made of an
integer part and/or a fractional part around an optional dot, and an
optional exponent.  The `inf`/`nan` spellings, underscore digit
separators and non-ASCII digits are outside the model; values are exact
rationals (IEEE rounding is abstracted away). -/

/-- Parse the exponent part following `e`/`E` in a float literal. -/
def expVal : List Char → Option ℤ
  | '+' :: r => if r ≠ [] ∧ r.all Char.isDigit then some (digitsVal r : ℤ) else none
  | '-' :: r => if r ≠ [] ∧ r.all Char.isDigit then some (-(digitsVal r : ℤ)) else none
  | r => if r ≠ [] ∧ r.all Char.isDigit then some (digitsVal r : ℤ) else none

/-- Model of CPython `float(s)` returning an exact rational. -/
def pyFloat (s : String) : Option ℚ :=
  let l := stripWs s.data
  let sl : ℚ × List Char :=
    match l with
    | '+' :: r => (1, r)
    | '-' :: r => (-1, r)
    | _ => (1, l)
  let ip := sl.2.takeWhile Char.isDigit
  let r1 := sl.2.dropWhile Char.isDigit
  let fr : List Char × List Char :=
    match r1 with
    | '.' :: t => (t.takeWhile Char.isDigit, t.dropWhile Char.isDigit)
    | _ => ([], r1)
  if ip = [] ∧ fr.1 = [] then none
  else
    let mant : ℚ := (digitsVal ip : ℚ) + (digitsVal fr.1 : ℚ) / ((10 : ℚ) ^ fr.1.length)
    match fr.2 with
    | [] => some (sl.1 * mant)
    | c :: t =>
      if c = 'e' ∨ c = 'E' then (expVal t).map (fun e => sl.1 * mant * (10 : ℚ) ^ e)
      else none

/-! ## Model of `datetime.strptime(raw, "%d/%m/%Y")` and `date.isoformat()` -/

/-- Gregorian leap-year test (as in Python's `datetime`). -/
def isLeap (y : Nat) : Bool := decide ((y % 4 = 0 ∧ y % 100 ≠ 0) ∨ y % 400 = 0)

/-- Number of days in a month (as validated by `datetime`). -/
def daysInMonth (y m : Nat) : Nat :=
  if m = 2 then (if isLeap y then 29 else 28)
  else if m = 4 ∨ m = 6 ∨ m = 9 ∨ m = 11 then 30
  else 31

/-- A day or month field of `strptime`: one or two digit characters with a
value in `[1, hi]` (the regex `3[01]|[12]\d|0[1-9]|[1-9]` and its month
analogue). -/
def fieldDM (l : List Char) (hi : Nat) : Option Nat :=
  if l ≠ [] ∧ l.length ≤ 2 ∧ l.all Char.isDigit then
    if 1 ≤ digitsVal l ∧ digitsVal l ≤ hi then some (digitsVal l) else none
  else none

/-- The `%Y` field of `strptime`: exactly four digit characters; year `0`
is rejected by the `datetime` constructor (`MINYEAR = 1`). -/
def fieldY (l : List Char) : Option Nat :=
  if l.length = 4 ∧ l.all Char.isDigit ∧ 1 ≤ digitsVal l then some (digitsVal l) else none

/-- Model of `datetime.strptime(raw, "%d/%m/%Y").date()`: the whole string
must match day `/` month `/` four-digit-year, and the day must exist in
the given month.  Returns `(year, month, day)`. -/
def pyStrptimeDMY (s : String) : Option (Nat × Nat × Nat) :=
  match splitOnChar '/' s.data with
  | [ds, ms, ys] =>
    match fieldDM ds 31, fieldDM ms 12, fieldY ys with
    | some d, some m, some y => if d ≤ daysInMonth y m then some (y, m, d) else none
    | _, _, _ => none
  | _ => none

/-- Model of `date(y, m, d).isoformat()`. -/
def isoOfDate (y m d : Nat) : String := pad 4 y ++ "-" ++ pad 2 m ++ "-" ++ pad 2 d

/-! ## CNMV scraper (`get_cnmv_short_positions`, lines 120-210) -/

/-- Model of `pct_raw.replace(",", ".")` (single-character replacement). -/
def commaToDot (s : String) : String := ⟨s.data.map (fun c => if c = ',' then '.' else c)⟩

/-- The date cell conversion of the row loop: ISO form when the cell
matches `%d/%m/%Y`, the raw text otherwise (lines 192-197). -/
def dateConv (raw : String) : String :=
  match pyStrptimeDMY raw with
  | some (y, m, d) => isoOfDate y m d
  | none => raw

/-- A parsed short-position row (`holder`, `net_short_pct`, `date`). -/
structure ShortPositionRow where
  holder : String
  net_short_pct : ℚ
  date : String
deriving DecidableEq, Repr

/-- Declarative description of one row of the CNMV table: at least three
cells, a parseable percentage after comma-to-dot replacement, and the
date conversion applied to the third cell. -/
def rowOfCells : List String → Option ShortPositionRow
  | t0 :: t1 :: t2 :: _ =>
    (pyFloat (commaToDot t1)).map (fun pct => ⟨t0, pct, dateConv t2⟩)
  | _ => none

/-- The row loop of `get_cnmv_short_positions` (lines 175-203): iterate the
rows, skip rows with fewer than three cells, skip rows whose percentage
fails to parse, convert the date cell. -/
def parseRowsAux : List (List String) → List ShortPositionRow
  | [] => []
  | tds :: rest =>
    match tds with
    | t0 :: t1 :: t2 :: _ =>
      match pyFloat (commaToDot t1) with
      | some pct => { holder := t0, net_short_pct := pct, date := dateConv t2 } :: parseRowsAux rest
      | none => parseRowsAux rest
    | _ => parseRowsAux rest

/-- `table.find_all("tr")[1:]` followed by the row loop: the header row is
skipped unconditionally. -/
def parseRows (trs : List (List String)) : List ShortPositionRow :=
  parseRowsAux (trs.drop 1)

/-- A `<table>` element as the scraper sees it: its flattened stripped
text (`" ".join(t.stripped_strings)`) and its rows as cell-text lists
(`tr.find_all("td")`, each cell via `get_text(" ", strip=True)`). -/
structure CnmvTable where
  flatText : String
  trs : List (List String)
deriving DecidableEq, Repr

/-- The fetched CNMV page: the tables in document order and the
`h1, h2, strong` texts in document order (`get_text(strip=True)`). -/
structure CnmvPage where
  tables : List CnmvTable
  headings : List String
deriving DecidableEq, Repr

/-- Outcome of `http_get` on the CNMV url: the fetch either raises (any
exception is caught by the scraper) or returns a parsed page. -/
inductive CnmvFetch where
  | failure
  | success (page : CnmvPage)
deriving DecidableEq, Repr

/-- The table-location heuristic (lines 146-152): a table matches when its
flattened text contains the English or the Spanish marker phrase. -/
def tableMatches (t : CnmvTable) : Bool :=
  pyIn "Outstanding net short positions" t.flatText ||
  pyIn "Notificaciones vivas iguales o superiores al 0,5%" t.flatText

/-- The issuer heuristic (lines 163-173): the first non-empty heading whose
lowercase text contains neither page-title phrase. -/
def issuerOf (page : CnmvPage) : String :=
  match page.headings.find? (fun tx =>
      tx != "" &&
      !(pyIn "posiciones cortas" (lowerStr tx) || pyIn "short positions" (lowerStr tx))) with
  | some tx => tx
  | none => ""

/-- The base consultation URL (line 45). -/
def CNMV_BASE_URL : String := "https://www.cnmv.es/Portal/Consultas/ee/posicionescortas"

/-- The query URL built for an identifier (lines 133-135; the language
suffix is always appended because `CNMV_LANG` defaults to `"es"` and is
never empty). -/
def cnmvUrl (nif lang : String) : String :=
  CNMV_BASE_URL ++ "?nif=" ++ nif ++ "&lang=" ++ lang

/-- The issuer block returned by the scraper. -/
structure IssuerBlock where
  nif : String
  issuer : String
  url : String
  rows : List ShortPositionRow
deriving DecidableEq, Repr

/-- `get_cnmv_short_positions` (lines 120-210): `none` models the
`return None` on fetch failure; a page without a matching table yields a
block with an empty row list. -/
def get_cnmv_short_positions (nif lang : String) (fetch : CnmvFetch) : Option IssuerBlock :=
  match fetch with
  | .failure => none
  | .success page =>
    match page.tables.find? tableMatches with
    | none => some { nif := nif, issuer := "", url := cnmvUrl nif lang, rows := [] }
    | some t =>
      some { nif := nif, issuer := issuerOf page, url := cnmvUrl nif lang, rows := parseRows t.trs }

/-! ## CNMV HTML block (`build_html_cnmv`, lines 212-255) -/

/-- Model of the `%.3f` format applied to the percentage: fixed-point with
three decimals; exact half-way cases are rounded up in the model (the
binary doubles of the source essentially never hit an exact half). -/
def formatPct (q : ℚ) : String :=
  let n : ℤ := ⌊|q| * 1000 + 1 / 2⌋
  let v : Nat := n.toNat
  (if q < 0 then "-" else "") ++ toString (v / 1000) ++ "." ++ pad 3 (v % 1000)

/-- The per-block `<h3>` heading (line 226). -/
def h3Part (title : String) : String :=
  "<h3 style=\"margin:16px 0 4px 0;\">" ++ title ++ "</h3>"

/-- The per-block source line (lines 227-230). -/
def sourcePart (u : String) : String :=
  "<div style=\"font-size:12px;color:#666;margin-bottom:4px;\">Fuente: <a href=\"" ++ u
    ++ "\">" ++ u ++ "</a></div>"

/-- The empty-rows paragraph (line 234). -/
def noRowsPart : String :=
  "<p style=\"font-size:13px;color:#666;\">Sin posiciones vivas publicadas.</p>"

/-- The table opening markup (lines 237-244). -/
def tableHeadPart : String :=
  "<table style=\"border-collapse:collapse;font-size:13px;margin-bottom:12px;\"><thead><tr>"
    ++ "<th style=\"border-bottom:1px solid #ccc;padding:4px 8px;text-align:left;\">Titular</th>"
    ++ "<th style=\"border-bottom:1px solid #ccc;padding:4px 8px;text-align:right;\">% capital</th>"
    ++ "<th style=\"border-bottom:1px solid #ccc;padding:4px 8px;text-align:left;\">Fecha posición</th>"
    ++ "</tr></thead><tbody>"

/-- One data row of the block table (lines 245-252). -/
def rowPart (r : ShortPositionRow) : String :=
  "<tr><td style=\"padding:4px 8px;\">" ++ r.holder
    ++ "</td><td style=\"padding:4px 8px;text-align:right;\">" ++ formatPct r.net_short_pct
    ++ "</td><td style=\"padding:4px 8px;\">" ++ r.date ++ "</td></tr>"

/-- The parts appended for one issuer block (lines 223-253). -/
def blockParts (b : IssuerBlock) : List String :=
  let issuer := strTrim b.issuer
  let title := if issuer ≠ "" then issuer ++ " (" ++ b.nif ++ ")" else b.nif
  [h3Part title, sourcePart b.url] ++
    (if b.rows = [] then [noRowsPart]
     else tableHeadPart :: (b.rows.map rowPart ++ ["</tbody></table>"]))

/-- `build_html_cnmv` (lines 212-255): empty input yields the empty
string, otherwise the joined parts list. -/
def build_html_cnmv (blocks : List IssuerBlock) : String :=
  if blocks = [] then ""
  else
    strIntercalate "\n"
      (["<hr style=\"margin:32px 0;\">",
        "<h2 style=\"margin-bottom:8px;\">Posiciones cortas CNMV (≥ 0,5%)</h2>"]
        ++ (blocks.map blockParts).flatten)

/-! ## Report composition (lines 668-673 of `main`) -/

/-- The closing wrapper marker searched for in the news artifact. -/
def MARKER : String := "</body></html>"

/-- The composition of the news artifact with the CNMV block markup
(lines 670-673): insert before the marker when the CNMV markup is
non-empty and the marker occurs, otherwise concatenate after the
artifact. -/
def composeReport (html_news cnmv_html : String) : String :=
  if cnmv_html ≠ "" ∧ pyIn MARKER html_news = true then
    pyReplace html_news MARKER (cnmv_html ++ "\n" ++ MARKER)
  else
    html_news ++ cnmv_html

/-! ## `is_recent` (lines 498-508)

The instant is the parsed publication time, modelled as `Option ℚ`
(seconds on a common axis): `none` covers both the falsy-input early
return and the parse-failure exception path, which both return `False`.
`datetime.now(target)` is passed explicitly as `now`; `astimezone` does
not move the instant, so the zone does not appear in the model.  The
`hours` argument is `Option ℚ` (`none` = the Python `None` default), and
`hours_recent_cfg` models `CFG.get("hours_recent", 24)`. -/

/-- Model of `is_recent`: note `hours or CFG.get(...)` replaces both
`None` and a falsy `0` by the configured default. -/
def is_recent (parsed : Option ℚ) (now : ℚ) (hours : Option ℚ) (hours_recent_cfg : ℚ) : Bool :=
  let h : ℚ :=
    match hours with
    | none => hours_recent_cfg
    | some x => if x = 0 then hours_recent_cfg else x
  match parsed with
  | none => false
  | some t => decide (now - t ≤ h * 3600)

/-! ## Listing resolution (`parse_listing_document`, lines 258-349) -/

/-- One candidate of a listing (`{url, title, time_hint}`). -/
structure ListingItem where
  url : String
  title : String
  time_hint : String
deriving DecidableEq, Repr

/-- A candidate tagged with its source name (`it["source"] = name`). -/
structure SourcedItem where
  url : String
  title : String
  time_hint : String
  source : String
deriving DecidableEq, Repr

/-- An RSS `<item>` element: the text of its `link`, `title` and
`pubdate`/`dc:date`/`published` children (empty string = absent, which is
how the source's truthiness tests behave). -/
structure FeedItemEl where
  link : String
  title : String
  pub : String
deriving DecidableEq, Repr

/-- An Atom `<entry>` element: `link[href]`, `title`,
`updated`/`published`. -/
structure AtomEntryEl where
  href : String
  title : String
  updated : String
deriving DecidableEq, Repr

/-- An anchor candidate of the structured-HTML tier: its `href`, its
stripped text and the text of a nearby time element (empty = none). -/
structure AnchorEl where
  href : String
  text : String
  timeHint : String
deriving DecidableEq, Repr

/-- The fetched listing document as the four BeautifulSoup queries of the
source see it: whether the root indicates a feed, the `item` elements,
the `entry` elements, the two anchor candidate sets (`article a[...]`
and `h2 a, h3 a`), and the urls the regex fallback extracts. -/
structure ListingDoc where
  isFeed : Bool
  rssItems : List FeedItemEl
  atomEntries : List AtomEntryEl
  articleAnchors : List AnchorEl
  headingAnchors : List AnchorEl
  regexUrls : List String
deriving DecidableEq, Repr

/-- Simplified model of `urllib.parse.urljoin`: an absolute reference is
returned unchanged, otherwise the reference is resolved by concatenation.
No claim depends on the join rule. -/
def urljoinModel (base ref : String) : String :=
  if strStartsWith ref "http" then ref else base ++ ref

/-- The RSS branch of the feed tier (lines 277-292): skip entries without
a link, absolutise the url. -/
def rssItemOf (base : String) (e : FeedItemEl) : Option ListingItem :=
  if e.link = "" then none
  else
    some { url := if strStartsWith e.link "http" then e.link else urljoinModel base e.link,
           title := e.title, time_hint := e.pub }

/-- The Atom branch of the feed tier (lines 293-309). -/
def atomItemOf (base : String) (e : AtomEntryEl) : Option ListingItem :=
  if e.href = "" then none
  else
    some { url := if strStartsWith e.href "http" then e.href else urljoinModel base e.href,
           title := e.title, time_hint := e.updated }

/-- One anchor of the structured-HTML tier (lines 317-330): skip anchors
without `href`, absolutise, reject urls that do not start with the
domain filter. -/
def anchorItemOf (base dPref : String) (a : AnchorEl) : Option ListingItem :=
  if a.href = "" then none
  else
    let u := urljoinModel base a.href
    if strStartsWith u dPref then
      some { url := u, title := a.text, time_hint := a.timeHint }
    else none

/-- The candidate anchors: `soup.select("article a[...]") or
soup.select("h2 a[...], h3 a[...]")` (lines 313-316). -/
def candidatesOf (doc : ListingDoc) : List AnchorEl :=
  if doc.articleAnchors = [] then doc.headingAnchors else doc.articleAnchors

/-- The append-then-check accumulation of every listing loop: append each
element, stop as soon as the running length reaches `maxF` (the length
check runs only after an append, exactly as `if len(items) >=
max_to_fetch: break`). -/
def fillTo (maxF : Nat) (acc : List ListingItem) : List ListingItem → List ListingItem
  | [] => acc
  | x :: rest =>
    if maxF ≤ acc.length + 1 then acc ++ [x]
    else fillTo maxF (acc ++ [x]) rest

/-- Tier 1, the feed tier (lines 276-309): RSS items, falling back to Atom
entries when the RSS loop produced nothing; empty when the document is
not a feed. -/
def feedTier (doc : ListingDoc) (base : String) (maxF : Nat) : List ListingItem :=
  if doc.isFeed then
    let rss := fillTo maxF [] (doc.rssItems.filterMap (rssItemOf base))
    if rss = [] then fillTo maxF [] (doc.atomEntries.filterMap (atomItemOf base)) else rss
  else []

/-- Tier 2, the structured-HTML tier (lines 312-330). -/
def htmlTier (doc : ListingDoc) (base dPref : String) (maxF : Nat) : List ListingItem :=
  fillTo maxF [] ((candidatesOf doc).filterMap (anchorItemOf base dPref))

/-- The running item list after tiers 1-2: the HTML tier runs only when
tier 1 produced nothing (`if not items:` at line 312). -/
def tier12 (doc : ListingDoc) (base dPref : String) (maxF : Nat) : List ListingItem :=
  let t1 := feedTier doc base maxF
  if t1 = [] then htmlTier doc base dPref maxF else t1

/-- Tier 3, the regex fallback (lines 332-337): append regex-extracted
urls to the running list. -/
def regexTier (doc : ListingDoc) (acc : List ListingItem) (maxF : Nat) : List ListingItem :=
  fillTo maxF acc (doc.regexUrls.map (fun u => { url := u, title := "", time_hint := "" }))

/-- The pre-dedup item list of `parse_listing_document`: the regex tier is
entered exactly when the running count is below 5 (`if len(items) < 5:`
at line 333). -/
def discovered (doc : ListingDoc) (base dPref : String) (maxF : Nat) : List ListingItem :=
  let t := tier12 doc base dPref maxF
  if t.length < 5 then regexTier doc t maxF else t

/-- The final dedup loop of `parse_listing_document` (lines 339-349):
keep the first occurrence of each url, stop once the output has reached
`maxF` elements (checked after each append). -/
def dedupCapAux (maxF : Nat) : List String → List ListingItem → List ListingItem → List ListingItem
  | _, out, [] => out
  | seen, out, it :: rest =>
    if it.url ∈ seen then dedupCapAux maxF seen out rest
    else if maxF ≤ out.length + 1 then out ++ [it]
    else dedupCapAux maxF (it.url :: seen) (out ++ [it]) rest

/-- The dedup loop started from empty state. -/
def dedupCap (maxF : Nat) (items : List ListingItem) : List ListingItem :=
  dedupCapAux maxF [] [] items

/-- `parse_listing_document` on a successfully fetched document. -/
def parse_listing_document (doc : ListingDoc) (base dPref : String) (maxF : Nat) :
    List ListingItem :=
  dedupCap maxF (discovered doc base dPref maxF)

/-- Uncapped first-occurrence deduplication by a key, the model of the
global dedup loop of `parse_all_listings` (lines 372-379). -/
def dedupFirstAux {α : Type} (key : α → String) : List String → List α → List α
  | _, [] => []
  | seen, x :: rest =>
    if key x ∈ seen then dedupFirstAux key seen rest
    else x :: dedupFirstAux key (key x :: seen) rest

/-- First-occurrence deduplication started from empty state. -/
def dedupFirst {α : Type} (key : α → String) (l : List α) : List α :=
  dedupFirstAux key [] l

/-- A configured source (`SOURCES` entry, lines 35-41). -/
structure SourceCfg where
  name : String
  listing : String
  homepage : String
  domainPref : String
  max_to_fetch : Nat
deriving DecidableEq, Repr

/-- Per-source resolution inside `parse_all_listings` (lines 353-371):
resolve the listing url, retry on the homepage when it differs and the
listing yielded nothing, then tag every item with the source name.  The
fetched documents are supplied by `env`. -/
def sourceItems (env : String → ListingDoc) (src : SourceCfg) : List SourcedItem :=
  let items := parse_listing_document (env src.listing) src.listing src.domainPref src.max_to_fetch
  let items :=
    if items = [] ∧ src.homepage ≠ src.listing then
      parse_listing_document (env src.homepage) src.homepage src.domainPref src.max_to_fetch
    else items
  items.map (fun it => { url := it.url, title := it.title, time_hint := it.time_hint,
                         source := src.name })

/-- The concatenated per-source item lists (`all_items`). -/
def collectAll (env : String → ListingDoc) (sources : List SourceCfg) : List SourcedItem :=
  (sources.map (sourceItems env)).flatten

/-- `parse_all_listings` (lines 351-380): concatenate and deduplicate
globally by url keeping the first occurrence. -/
def parse_all_listings (env : String → ListingDoc) (sources : List SourceCfg) :
    List SourcedItem :=
  dedupFirst (fun it => it.url) (collectAll env sources)

/-! ## Adaptive keyword prefilter (`main`, lines 604-618)

`norm` applies Unicode NFKD decomposition, strips combining marks and
lowercases; it is passed in abstractly as `normF` (on lowercase ASCII
data it is the identity).  The keyword list is the already-normalised
`kw_list` of the source. -/

/-- The per-item keyword test of the prefilter comprehension (lines
607-610): any keyword occurring in the normalised title or url. -/
def kwMatch (normF : String → String) (kws : List String) (it : SourcedItem) : Bool :=
  kws.any (fun k => strContains (normF it.title) k || strContains (normF it.url) k)

/-- The adaptive prefilter (lines 604-618): the filtered list is adopted
only when it retains at least `max(50, int(before * 0.2))` items; the
float truncation `int(before * 0.2)` equals `before / 5` in integer
division for every realistic length (below 2^50).  Returns the resulting
listing and whether the prefilter was applied. -/
def prefilterListing (normF : String → String) (kws : List String)
    (listing : List SourcedItem) : List SourcedItem × Bool :=
  let pre := listing.filter (kwMatch normF kws)
  let use_pref := decide (Nat.max 50 (listing.length / 5) ≤ pre.length)
  (if use_pref then pre else listing, use_pref)

/-! ## The extraction loop of `main` (lines 620-648), no-keyword case -/

/-- A normalized article record (`extract_article` result plus the source
tag attached by the loop). -/
structure ArticleRecord where
  url : String
  title : String
  author : String
  published : Option String
  content : String
  source : String
deriving DecidableEq, Repr

/-- Result of the extraction loop: collected articles, final seen set,
urls for which extraction was attempted, urls skipped by the seen
check. -/
structure LoopResult where
  collected : List ArticleRecord
  seenOut : List String
  attempted : List String
  skipped : List String
deriving DecidableEq, Repr

/-- `load_state` (lines 565-566): always the empty set. -/
def load_state : List String := []

/-- The extraction loop of `main` with no keywords configured (lines
620-648): the seen check applies (`if not kw_list and url in seen`), the
body-keyword filter is skipped, an article is collected when extraction
succeeds, it has a published instant and that instant is recent; the url
is added to `seen` only on collection.  `extractF` models
`extract_article` (`none` = exception) and `recentF` models
`is_recent` applied to the published value. -/
def mainLoopNoKw (extractF : String → Option ArticleRecord) (recentF : String → Bool) :
    List SourcedItem → List String → LoopResult
  | [], seen => { collected := [], seenOut := seen, attempted := [], skipped := [] }
  | item :: rest, seen =>
    if item.url ∈ seen then
      let r := mainLoopNoKw extractF recentF rest seen
      { r with skipped := item.url :: r.skipped }
    else
      match extractF item.url with
      | none =>
        let r := mainLoopNoKw extractF recentF rest seen
        { r with attempted := item.url :: r.attempted }
      | some art =>
        match art.published with
        | none =>
          let r := mainLoopNoKw extractF recentF rest seen
          { r with attempted := item.url :: r.attempted }
        | some p =>
          if recentF p then
            let r := mainLoopNoKw extractF recentF rest (item.url :: seen)
            { r with collected := { art with source := item.source } :: r.collected,
                     attempted := item.url :: r.attempted }
          else
            let r := mainLoopNoKw extractF recentF rest seen
            { r with attempted := item.url :: r.attempted }

/-! ## Author extraction (`extract_article`, lines 443-474) -/

/-- The embedded-metadata `author` value, as the duck-typed source
classifies it: absent, a plain string, an object with `name` and `@id`
entries (empty string = absent entry), a list, or any other shape. -/
inductive JsonAuthor where
  | absent
  | str (s : String)
  | obj (name atId : String)
  | arr (elems : List JsonAuthor)
  | other

/-- `pick_name` (lines 445-450): an object yields `name or @id or ""`, a
string yields itself, anything else yields the empty string. -/
def pick_name : JsonAuthor → String
  | .obj n i => if n ≠ "" then n else i
  | .str s => s
  | _ => ""

/-- The structured-metadata author normalisation (lines 451-455): a list
joins the truthy picked names with `", "`, anything else is picked
directly. -/
def structuredAuthor : JsonAuthor → String
  | .arr l => strIntercalate ", " ((l.map pick_name).filter (fun s => s != ""))
  | a => pick_name a

/-- The author-related HTML of the article page: for each checked meta
selector, the tag's `content` when the tag exists (`some ""` models a tag
with empty content, skipped like an absent tag), and the text of the
first byline-selector match (empty = no match). -/
structure AuthorSoup where
  metaAuthor : Option String
  metaArticleAuthor : Option String
  metaByl : Option String
  metaDcCreator : Option String
  metaParsely : Option String
  byline : String
deriving DecidableEq, Repr

/-- First truthy content among the checked meta tags (the loop of lines
460-470 breaks at the first tag with truthy `content`). -/
def firstTruthy : List (Option String) → Option String
  | [] => none
  | o :: rest =>
    match o with
    | some c => if c != "" then some c else firstTruthy rest
    | none => firstTruthy rest

/-- The HTML fallback for the author (lines 459-474): the first truthy
meta content, stripped; when that leaves nothing, the byline selector
text. -/
def htmlAuthor (s : AuthorSoup) : String :=
  let fromMeta :=
    match firstTruthy [s.metaAuthor, s.metaArticleAuthor, s.metaByl, s.metaDcCreator,
        s.metaParsely] with
    | some c => strTrim c
    | none => ""
  if fromMeta != "" then fromMeta else s.byline

/-- The author field of `extract_article` (lines 443-474): the structured
metadata author when non-empty, otherwise the HTML fallback. -/
def extract_article_author (meta : JsonAuthor) (s : AuthorSoup) : String :=
  let author := structuredAuthor meta
  if author != "" then author else htmlAuthor s

/-! ## Concrete inputs used by witnesses and counterexamples -/

/-- A non-feed document whose only discovery is one regex url. -/
def cDoc0 : ListingDoc :=
  { isFeed := false, rssItems := [], atomEntries := [], articleAnchors := [],
    headingAnchors := [], regexUrls := ["http://a/x.html"] }

/-- A feed document with one RSS item. -/
def cDocFeed : ListingDoc :=
  { isFeed := true,
    rssItems := [{ link := "http://f/a.html", title := "t", pub := "p" }],
    atomEntries := [], articleAnchors := [], headingAnchors := [], regexUrls := ["http://f/r.html"] }

/-- A non-feed document whose HTML tier yields five items. -/
def cDocHtml : ListingDoc :=
  { isFeed := false, rssItems := [], atomEntries := [],
    articleAnchors :=
      [{ href := "http://h/1.html", text := "1", timeHint := "" },
       { href := "http://h/2.html", text := "2", timeHint := "" },
       { href := "http://h/3.html", text := "3", timeHint := "" },
       { href := "http://h/4.html", text := "4", timeHint := "" },
       { href := "http://h/5.html", text := "5", timeHint := "" }],
    headingAnchors := [], regexUrls := ["http://h/r.html"] }

/-- 1000 listing items of which exactly 60 match the keyword `"k"`. -/
def exampleListing60 : List SourcedItem :=
  List.replicate 60 { url := "u", title := "k", time_hint := "", source := "s" } ++
  List.replicate 940 { url := "u", title := "z", time_hint := "", source := "s" }

/-- 1000 listing items of which exactly 250 match the keyword `"k"`. -/
def exampleListing250 : List SourcedItem :=
  List.replicate 250 { url := "u", title := "k", time_hint := "", source := "s" } ++
  List.replicate 750 { url := "u", title := "z", time_hint := "", source := "s" }

/-- 253 listing items of which exactly 50 match the keyword `"k"`. -/
def exampleListing253 : List SourcedItem :=
  List.replicate 50 { url := "u", title := "k", time_hint := "", source := "s" } ++
  List.replicate 203 { url := "u", title := "z", time_hint := "", source := "s" }

/-! # Helper lemmas -/

/-! ## String occurrence and replacement -/

theorem append_drop_of_isPrefixOf {p l : List Char} (h : p.isPrefixOf l = true) :
    l = p ++ l.drop p.length := by
  have hp : p <+: l := List.isPrefixOf_iff_prefix.mp h
  conv_lhs => rw [← List.take_append_drop p.length l]
  rw [← List.prefix_iff_eq_take.mp hp]

theorem splitFirst_append {p : List Char} {l a b : List Char}
    (h : splitFirst p l = some (a, b)) : l = a ++ p ++ b := by
  induction l generalizing a b with
  | nil => simp [splitFirst] at h
  | cons c rest ih =>
    rw [splitFirst] at h
    by_cases hg : (p.isPrefixOf (c :: rest) && !p.isEmpty) = true
    · rw [if_pos hg] at h
      obtain ⟨hpre, hne⟩ := Bool.and_eq_true_iff.mp hg
      obtain ⟨k, hk⟩ : ∃ k, p.length = k + 1 := by
        cases p with
        | nil => simp at hne
        | cons q qs => exact ⟨qs.length, rfl⟩
      simp only [Option.some.injEq, Prod.mk.injEq] at h
      obtain ⟨ha, hb⟩ := h
      subst ha hb
      have h1 := append_drop_of_isPrefixOf hpre
      rw [hk, List.drop_succ_cons] at h1
      simpa [hk] using h1
    · rw [if_neg hg] at h
      cases hs : splitFirst p rest with
      | none => rw [hs] at h; simp at h
      | some ab =>
        rw [hs] at h
        simp only [Option.map_some', Option.some.injEq, Prod.mk.injEq] at h
        obtain ⟨ha, hb⟩ := h
        subst ha hb
        simpa using congrArg (c :: ·) (ih hs)

theorem splitFirst_replaceAll {p r : List Char} {l a b : List Char}
    (h : splitFirst p l = some (a, b)) :
    replaceAll p r l = a ++ r ++ replaceAll p r b := by
  induction l generalizing a b with
  | nil => simp [splitFirst] at h
  | cons c rest ih =>
    rw [splitFirst] at h
    rw [replaceAll]
    by_cases hg : (p.isPrefixOf (c :: rest) && !p.isEmpty) = true
    · rw [if_pos hg] at h
      rw [if_pos hg]
      simp only [Option.some.injEq, Prod.mk.injEq] at h
      obtain ⟨ha, hb⟩ := h
      subst ha hb
      simp
    · rw [if_neg hg] at h
      rw [if_neg hg]
      cases hs : splitFirst p rest with
      | none => rw [hs] at h; simp at h
      | some ab =>
        rw [hs] at h
        simp only [Option.map_some', Option.some.injEq, Prod.mk.injEq] at h
        obtain ⟨ha, hb⟩ := h
        subst ha hb
        simp [ih hs]

theorem replaceAll_of_hasSub_false {p r l : List Char} (h : hasSub p l = false) :
    replaceAll p r l = l := by
  induction l with
  | nil => rw [replaceAll]
  | cons c rest ih =>
    rw [hasSub, Bool.or_eq_false_iff] at h
    rw [replaceAll, if_neg (by simp [h.1]), ih h.2]

theorem hasSub_of_splitFirst {p l a b : List Char}
    (h : splitFirst p l = some (a, b)) : hasSub p l = true := by
  induction l generalizing a b with
  | nil => simp [splitFirst] at h
  | cons c rest ih =>
    rw [splitFirst] at h
    rw [hasSub]
    by_cases hg : (p.isPrefixOf (c :: rest) && !p.isEmpty) = true
    · rw [Bool.or_eq_true]
      exact Or.inl (Bool.and_eq_true_iff.mp hg).1
    · rw [if_neg hg] at h
      cases hs : splitFirst p rest with
      | none => rw [hs] at h; simp at h
      | some ab => simp [ih hs]

/-! ## Row parsing -/

theorem parseRowsAux_eq_filterMap : ∀ trs : List (List String),
    parseRowsAux trs = trs.filterMap rowOfCells := by
  intro trs
  induction trs with
  | nil => rfl
  | cons tds rest ih =>
    rcases tds with _ | ⟨t0, _ | ⟨t1, _ | ⟨t2, r2⟩⟩⟩
    · simp [parseRowsAux, rowOfCells, List.filterMap_cons, ih]
    · simp [parseRowsAux, rowOfCells, List.filterMap_cons, ih]
    · simp [parseRowsAux, rowOfCells, List.filterMap_cons, ih]
    · simp only [parseRowsAux, rowOfCells, List.filterMap_cons]
      cases pyFloat (commaToDot t1) <;> simp [ih]

/-! ## First-occurrence deduplication -/

theorem dedupFirstAux_sublist {α : Type} (key : α → String) :
    ∀ (l : List α) (seen : List String), List.Sublist (dedupFirstAux key seen l) l := by
  intro l
  induction l with
  | nil => intro seen; simp [dedupFirstAux]
  | cons x rest ih =>
    intro seen
    rw [dedupFirstAux]
    by_cases hx : key x ∈ seen
    · rw [if_pos hx]
      exact (ih seen).cons x
    · rw [if_neg hx]
      exact (ih (key x :: seen)).cons₂ x

theorem dedupFirstAux_nodup {α : Type} (key : α → String) :
    ∀ (l : List α) (seen : List String),
      ((dedupFirstAux key seen l).map key).Nodup ∧
      ∀ y ∈ dedupFirstAux key seen l, key y ∉ seen := by
  intro l
  induction l with
  | nil => intro seen; simp [dedupFirstAux]
  | cons x rest ih =>
    intro seen
    rw [dedupFirstAux]
    by_cases hx : key x ∈ seen
    · rw [if_pos hx]
      exact ih seen
    · rw [if_neg hx]
      obtain ⟨ihn, ihm⟩ := ih (key x :: seen)
      refine ⟨?_, ?_⟩
      · simp only [List.map_cons, List.nodup_cons]
        refine ⟨?_, ihn⟩
        intro hmem
        obtain ⟨y, hy, hky⟩ := List.mem_map.mp hmem
        exact ihm y hy (hky ▸ List.mem_cons_self _ _)
      · intro y hy
        rcases List.mem_cons.mp hy with rfl | hy'
        · exact hx
        · intro hseen
          exact ihm y hy' (List.mem_cons_of_mem _ hseen)

theorem dedupFirstAux_find {α : Type} (key : α → String) :
    ∀ (l : List α) (seen : List String) (x : α), x ∈ dedupFirstAux key seen l →
      l.find? (fun y => key y == key x) = some x := by
  intro l
  induction l with
  | nil => intro seen x hx; simp [dedupFirstAux] at hx
  | cons z rest ih =>
    intro seen x hx
    rw [dedupFirstAux] at hx
    by_cases hz : key z ∈ seen
    · rw [if_pos hz] at hx
      have hxnot : key x ∉ seen := (dedupFirstAux_nodup key rest seen).2 x hx
      have hb : (key z == key x) = false := by
        simp only [beq_eq_false_iff_ne, ne_eq]
        intro he
        exact hxnot (he ▸ hz)
      rw [List.find?_cons, hb]
      exact ih seen x hx
    · rw [if_neg hz] at hx
      rcases List.mem_cons.mp hx with rfl | hx'
      · rw [List.find?_cons, beq_self_eq_true]
      · have hxnot : key x ∉ key z :: seen :=
          (dedupFirstAux_nodup key rest (key z :: seen)).2 x hx'
        have hb : (key z == key x) = false := by
          simp only [beq_eq_false_iff_ne, ne_eq]
          intro he
          exact hxnot (he ▸ List.mem_cons_self _ _)
        rw [List.find?_cons, hb]
        exact ih (key z :: seen) x hx'

theorem dedupCapAux_eq_take (maxF : Nat) :
    ∀ (l : List ListingItem) (seen : List String) (out : List ListingItem),
      out.length < maxF →
      dedupCapAux maxF seen out l =
        out ++ (dedupFirstAux (fun it => it.url) seen l).take (maxF - out.length) := by
  intro l
  induction l with
  | nil => intro seen out _; simp [dedupCapAux, dedupFirstAux]
  | cons it rest ih =>
    intro seen out hout
    rw [dedupCapAux, dedupFirstAux]
    by_cases hmem : it.url ∈ seen
    · rw [if_pos hmem, if_pos hmem]
      exact ih seen out hout
    · rw [if_neg hmem, if_neg hmem]
      by_cases hcap : maxF ≤ out.length + 1
      · rw [if_pos hcap]
        have hmax : maxF - out.length = 1 := by omega
        rw [hmax, List.take_succ_cons, List.take_zero]
      · rw [if_neg hcap]
        have hout2 : (out ++ [it]).length < maxF := by
          simp only [List.length_append, List.length_cons, List.length_nil]
          omega
        rw [ih (it.url :: seen) (out ++ [it]) hout2]
        have hmax : maxF - out.length = (maxF - (out ++ [it]).length) + 1 := by
          simp only [List.length_append, List.length_cons, List.length_nil]
          omega
        rw [hmax, List.take_succ_cons]
        simp

theorem parse_listing_document_eq_take (doc : ListingDoc) (base dPref : String) (maxF : Nat)
    (h : 1 ≤ maxF) :
    parse_listing_document doc base dPref maxF =
      (dedupFirst (fun it => it.url) (discovered doc base dPref maxF)).take maxF := by
  rw [parse_listing_document, dedupCap, dedupFirst,
    dedupCapAux_eq_take maxF _ [] [] (by simpa using h)]
  simp

/-! ## The extraction loop -/

theorem mainLoopNoKw_no_skip (extractF : String → Option ArticleRecord)
    (recentF : String → Bool) :
    ∀ (items : List SourcedItem) (seen : List String),
      ((items.map (fun it => it.url)).Nodup) → (∀ it ∈ items, it.url ∉ seen) →
      (mainLoopNoKw extractF recentF items seen).skipped = [] ∧
      (mainLoopNoKw extractF recentF items seen).attempted =
        items.map (fun it => it.url) := by
  intro items
  induction items with
  | nil => intro seen _ _; simp [mainLoopNoKw]
  | cons item rest ih =>
    intro seen hnodup hseen
    have hnotin : item.url ∉ seen := hseen item (List.mem_cons_self _ _)
    have hnodup' : ((rest.map (fun it => it.url)).Nodup) :=
      (List.nodup_cons.mp (by simpa using hnodup)).2
    have hhead : item.url ∉ rest.map (fun it => it.url) :=
      (List.nodup_cons.mp (by simpa using hnodup)).1
    have hseen' : ∀ it ∈ rest, it.url ∉ seen := fun it hit =>
      hseen it (List.mem_cons_of_mem _ hit)
    rw [mainLoopNoKw, if_neg hnotin]
    cases hex : extractF item.url with
    | none =>
      obtain ⟨h1, h2⟩ := ih seen hnodup' hseen'
      simp [h1, h2]
    | some art =>
      cases hpub : art.published with
      | none =>
        obtain ⟨h1, h2⟩ := ih seen hnodup' hseen'
        simp [hpub, h1, h2]
      | some p =>
        by_cases hrec : recentF p = true
        · have hseen2 : ∀ it ∈ rest, it.url ∉ item.url :: seen := by
            intro it hit
            simp only [List.mem_cons, not_or]
            refine ⟨?_, hseen' it hit⟩
            intro he
            exact hhead (he ▸ List.mem_map_of_mem (fun it => it.url) hit)
          obtain ⟨h1, h2⟩ := ih (item.url :: seen) hnodup' hseen2
          simp [hpub, hrec, h1, h2]
        · obtain ⟨h1, h2⟩ := ih seen hnodup' hseen'
          simp [hpub, hrec, h1, h2]

/-! # Claim theorems -/

/-- C5: the emitted rows of a parsed table are exactly the non-header rows
with at least 3 cells whose percentage cell parses after replacing comma
with dot ("1,234" yields 1.234, "abc" drops only its own row), each
emitted row's date being the ISO-8601 conversion when the cell matches
the day/month/year pattern ("05/03/2024" yields "2024-03-05") and the raw
text otherwise ("not-a-date" unchanged), in table order. -/
theorem C5_row_parsing :
    (∀ trs : List (List String), parseRows trs = (trs.drop 1).filterMap rowOfCells) ∧
    (∀ (t0 t1 t2 : String) (rest : List String),
      rowOfCells (t0 :: t1 :: t2 :: rest) =
        (pyFloat (commaToDot t1)).map (fun pct => ⟨t0, pct, dateConv t2⟩)) ∧
    rowOfCells [] = none ∧
    (∀ t0 : String, rowOfCells [t0] = none) ∧
    (∀ t0 t1 : String, rowOfCells [t0, t1] = none) ∧
    pyFloat (commaToDot "1,234") = some ((1234 : ℚ) / 1000) ∧
    pyFloat "abc" = none ∧
    dateConv "05/03/2024" = "2024-03-05" ∧
    dateConv "not-a-date" = "not-a-date" ∧
    parseRows [["H", "%", "Fecha"], ["a", "1,5", "05/03/2024"], ["b", "abc", "01/01/2020"],
        ["c", "2", "not-a-date"]] =
      [⟨"a", (3 : ℚ) / 2, "2024-03-05"⟩, ⟨"c", 2, "not-a-date"⟩] := by
  refine ⟨fun trs => parseRowsAux_eq_filterMap (trs.drop 1), fun t0 t1 t2 rest => rfl,
    rfl, fun t0 => rfl, fun t0 t1 => rfl, by with_unfolding_all decide, by decide, by decide,
    by decide, by with_unfolding_all decide⟩

/-- C6 (amended): `is_recent` is monotonic in the window size over
positive windows (a window argument of 0 is falsy in the source and is
replaced by the configured default window, so monotonicity holds for
0 < w ≤ w'), and an absent instant is never recent for any window. -/
theorem C6_is_recent_monotone :
    (∀ (parsed : Option ℚ) (now w w' cfg : ℚ), 0 < w → w ≤ w' →
      is_recent parsed now (some w) cfg = true → is_recent parsed now (some w') cfg = true) ∧
    (∀ (now cfg : ℚ) (hours : Option ℚ), is_recent none now hours cfg = false) := by
  constructor
  · intro parsed now w w' cfg hw hww h
    cases parsed with
    | none => simp [is_recent] at h
    | some t =>
      have hwne : ¬ (w = 0) := ne_of_gt hw
      have hw'ne : ¬ (w' = 0) := ne_of_gt (lt_of_lt_of_le hw hww)
      simp only [is_recent, if_neg hwne, decide_eq_true_eq] at h
      simp only [is_recent, if_neg hw'ne, decide_eq_true_eq]
      have h36 : w * 3600 ≤ w' * 3600 := by nlinarith
      linarith
  · intro now cfg hours
    rfl

/-- Witness for C6: a concrete monotone pair of positive windows and a
concrete absent instant. -/
theorem C6_is_recent_monotone_witness :
    (0 : ℚ) < 1 ∧ (1 : ℚ) ≤ 2 ∧
    is_recent (some 0) 1800 (some 1) 24 = true ∧
    is_recent (some 0) 1800 (some 2) 24 = true ∧
    is_recent none 0 none 24 = false := by
  refine ⟨by norm_num, by norm_num, by with_unfolding_all decide, ?_,
    C6_is_recent_monotone.2 0 24 none⟩
  exact C6_is_recent_monotone.1 (some 0) 1800 1 2 24 (by norm_num) (by norm_num)
    (by with_unfolding_all decide)

/-- Counterexample to C6 as stated: an instant 10 hours old is recent at
window 0 (which the source replaces by the 24-hour default) but not
recent at the strictly larger window 1, so monotonicity over all windows
fails. -/
theorem C6_monotone_counterexample :
    (0 : ℚ) < 1 ∧
    is_recent (some 0) 36000 (some 0) 24 = true ∧
    is_recent (some 0) 36000 (some 1) 24 = false := by
  refine ⟨by norm_num, by with_unfolding_all decide, by with_unfolding_all decide⟩

/-- C7: for a non-empty issuer-block markup, the composed report inserts
the markup immediately before the closing wrapper marker when the marker
occurs in the base artifact (shown here for the leftmost occurrence,
with no further occurrence after it), and otherwise appends the markup
after the base artifact string, never merging it inside. -/
theorem C7_compose_marker (base cnmv : String) (hc : cnmv ≠ "") :
    (pyIn MARKER base = false → composeReport base cnmv = base ++ cnmv) ∧
    (∀ a b : String, splitFirstStr MARKER base = some (a, b) → pyIn MARKER b = false →
      base = a ++ MARKER ++ b ∧
      composeReport base cnmv = a ++ cnmv ++ "\n" ++ MARKER ++ b) := by
  constructor
  · intro hno
    rw [composeReport, if_neg]
    intro hcontra
    rw [hno] at hcontra
    exact absurd hcontra.2 (by simp)
  · intro a b hsplit hb
    rw [splitFirstStr] at hsplit
    cases hsp : splitFirst MARKER.data base.data with
    | none => rw [hsp] at hsplit; simp at hsplit
    | some ab =>
      rw [hsp] at hsplit
      simp only [Option.map_some', Option.some.injEq, Prod.mk.injEq] at hsplit
      obtain ⟨ha, hb2⟩ := hsplit
      subst ha hb2
      have hbase : base.data = ab.1 ++ MARKER.data ++ ab.2 := splitFirst_append hsp
      constructor
      · apply String.ext
        simpa using hbase
      · rw [composeReport, if_pos ⟨hc, hasSub_of_splitFirst hsp⟩]
        apply String.ext
        rw [pyReplace]
        have hrep := splitFirst_replaceAll
          (r := (cnmv ++ "\n" ++ MARKER).data) hsp
        have hfix : replaceAll MARKER.data (cnmv ++ "\n" ++ MARKER).data ab.2 = ab.2 :=
          replaceAll_of_hasSub_false hb
        rw [hrep, hfix]
        simp

/-- Witness for C7: a base artifact with a single marker occurrence and a
base artifact without the marker. -/
theorem C7_compose_marker_witness :
    composeReport "<x></body></html>tail" "CN" = "<x>" ++ "CN" ++ "\n" ++ MARKER ++ "tail" ∧
    composeReport "noclose" "CN" = "noclose" ++ "CN" := by
  have h1 := C7_compose_marker "<x></body></html>tail" "CN" (by decide)
  have h2 := C7_compose_marker "noclose" "CN" (by decide)
  exact ⟨(h1.2 "<x>" "tail" (by decide) (by decide)).2, h2.1 (by decide)⟩

/-- C8: the regulatory scraper returns an absent result on fetch failure,
always returns some block on a fetched page (it never raises), and when
no table's flattened text contains either marker phrase it returns a
block with the given identifier and an empty row list. -/
theorem C8_cnmv_total (nif lang : String) :
    get_cnmv_short_positions nif lang .failure = none ∧
    (∀ page : CnmvPage, (get_cnmv_short_positions nif lang (.success page)).isSome = true) ∧
    (∀ page : CnmvPage, page.tables.find? tableMatches = none →
      get_cnmv_short_positions nif lang (.success page) =
        some { nif := nif, issuer := "", url := cnmvUrl nif lang, rows := [] }) := by
  refine ⟨rfl, fun page => ?_, fun page h => ?_⟩
  · rw [get_cnmv_short_positions]
    cases page.tables.find? tableMatches <;> simp
  · rw [get_cnmv_short_positions, h]

/-- Witness for C8: a fetched page with no tables at all yields the
empty-rows block for the requested identifier. -/
theorem C8_cnmv_total_witness :
    get_cnmv_short_positions "A-28294726" "es" (.success ⟨[], ["Enagas"]⟩) =
      some { nif := "A-28294726", issuer := "",
             url := cnmvUrl "A-28294726" "es", rows := [] } ∧
    cnmvUrl "A-28294726" "es" =
      "https://www.cnmv.es/Portal/Consultas/ee/posicionescortas?nif=A-28294726&lang=es" := by
  exact ⟨(C8_cnmv_total "A-28294726" "es").2.2 ⟨[], ["Enagas"]⟩ rfl, rfl⟩

/-- C10: with no issuer blocks the markup builder returns the empty
string, and composing any base artifact with it is the identity on the
base artifact. -/
theorem C10_empty_blocks_identity :
    build_html_cnmv [] = "" ∧
    ∀ base : String, composeReport base (build_html_cnmv []) = base := by
  refine ⟨rfl, fun base => ?_⟩
  rw [composeReport, if_neg]
  · exact String.append_empty base
  · intro hcontra
    exact absurd rfl hcontra.1

/-- C1 (amended): for max_items at least 1, the per-source resolution is
the first-occurrence deduplication of the discovered items truncated to
max_items — so it has no duplicate urls, length at most max_items, and
each kept item is the first discovered item with its url; the cap check
of the source runs only after an append, so max_items = 0 can still emit
one item.  The global aggregate likewise has no duplicate urls and keeps
the first occurrence across sources. -/
theorem C1_listing_dedup (doc : ListingDoc) (base dPref : String) (maxF : Nat)
    (env : String → ListingDoc) (sources : List SourceCfg) (hmax : 1 ≤ maxF) :
    parse_listing_document doc base dPref maxF =
      (dedupFirst (fun it => it.url) (discovered doc base dPref maxF)).take maxF ∧
    ((parse_listing_document doc base dPref maxF).map (fun it => it.url)).Nodup ∧
    (parse_listing_document doc base dPref maxF).length ≤ maxF ∧
    (∀ x ∈ parse_listing_document doc base dPref maxF,
      (discovered doc base dPref maxF).find? (fun y => y.url == x.url) = some x) ∧
    ((parse_all_listings env sources).map (fun it => it.url)).Nodup ∧
    (∀ x ∈ parse_all_listings env sources,
      (collectAll env sources).find? (fun y => y.url == x.url) = some x) := by
  have heq := parse_listing_document_eq_take doc base dPref maxF hmax
  refine ⟨heq, ?_, ?_, ?_, ?_, ?_⟩
  · rw [heq, List.map_take]
    exact ((dedupFirstAux_nodup (fun it : ListingItem => it.url)
      (discovered doc base dPref maxF) []).1).sublist (List.take_sublist maxF _)
  · rw [heq]
    exact List.length_take_le maxF _
  · intro x hx
    rw [heq] at hx
    exact dedupFirstAux_find (fun it : ListingItem => it.url)
      (discovered doc base dPref maxF) [] x ((List.take_sublist maxF _).subset hx)
  · exact (dedupFirstAux_nodup (fun it : SourcedItem => it.url)
      (collectAll env sources) []).1
  · intro x hx
    exact dedupFirstAux_find (fun it : SourcedItem => it.url)
      (collectAll env sources) [] x hx

/-- Witness for C1: a concrete document resolved with cap 1. -/
theorem C1_listing_dedup_witness :
    ((parse_listing_document cDoc0 "http://a/" "" 1).map (fun it => it.url)).Nodup ∧
    (parse_listing_document cDoc0 "http://a/" "" 1).length ≤ 1 := by
  have h := C1_listing_dedup cDoc0 "http://a/" "" 1 (fun _ => cDoc0) [] (by decide)
  exact ⟨h.2.1, h.2.2.1⟩

/-- Counterexample to C1 as stated: with max_items = 0 the source's
append-then-check loop still emits one item, so the resolved list's
length exceeds max_items. -/
theorem C1_cap_counterexample :
    ¬ ((parse_listing_document cDoc0 "http://a/" "" 0).length ≤ 0) := by decide

/-- C2 (amended): the prefilter is applied exactly when the number of
matching items is at least max(50, the 20% share truncated to an integer,
i.e. N / 5 rounded down); when applied the listing becomes the matching
subset, otherwise the full listing proceeds.  With 1000 items, 60 matches
discard the prefilter and 250 matches apply it. -/
theorem C2_prefilter_threshold (normF : String → String) (kws : List String)
    (listing : List SourcedItem) :
    ((prefilterListing normF kws listing).2 = true ↔
      Nat.max 50 (listing.length / 5) ≤ (listing.filter (kwMatch normF kws)).length) ∧
    ((prefilterListing normF kws listing).2 = true →
      (prefilterListing normF kws listing).1 = listing.filter (kwMatch normF kws)) ∧
    ((prefilterListing normF kws listing).2 = false →
      (prefilterListing normF kws listing).1 = listing) ∧
    exampleListing60.length = 1000 ∧
    (exampleListing60.filter (kwMatch id ["k"])).length = 60 ∧
    (prefilterListing id ["k"] exampleListing60).2 = false ∧
    exampleListing250.length = 1000 ∧
    (exampleListing250.filter (kwMatch id ["k"])).length = 250 ∧
    (prefilterListing id ["k"] exampleListing250).2 = true := by
  refine ⟨?_, ?_, ?_, by decide, by decide, by decide, by decide, by decide, by decide⟩
  · simp [prefilterListing]
  · intro h
    simp only [prefilterListing, decide_eq_true_eq] at h ⊢
    rw [if_pos (by simpa using h)]
  · intro h
    simp only [prefilterListing, decide_eq_false_iff_not] at h ⊢
    rw [if_neg (by simpa using h)]

/-- Witness for C2: the prefilter outcome at the two 1000-item examples. -/
theorem C2_prefilter_threshold_witness :
    (prefilterListing id ["k"] exampleListing250).1 =
      exampleListing250.filter (kwMatch id ["k"]) ∧
    (prefilterListing id ["k"] exampleListing60).1 = exampleListing60 := by
  have h1 := C2_prefilter_threshold id ["k"] exampleListing250
  have h2 := C2_prefilter_threshold id ["k"] exampleListing60
  exact ⟨h1.2.1 h1.2.2.2.2.2.2.2.2, h2.2.2.1 h2.2.2.2.2.2.1⟩

/-- Counterexample to C2 as stated: with 253 items and exactly 50 matches
the source applies the prefilter (its threshold is max(50, int(253*0.2))
= 50), while the exact-percentage threshold max(50, 20% of 253) = 50.6 is
not met. -/
theorem C2_prefilter_counterexample :
    (prefilterListing id ["k"] exampleListing253).2 = true ∧
    ¬ (Max.max (50 : ℚ) ((exampleListing253.length : ℚ) * 20 / 100)
        ≤ ((exampleListing253.filter (kwMatch id ["k"])).length : ℚ)) := by
  constructor
  · decide
  · have h1 : (exampleListing253.filter (kwMatch id ["k"])).length = 50 := by decide
    have h2 : exampleListing253.length = 253 := by decide
    rw [h1, h2]
    simp only [max_le_iff, not_and]
    intro _
    norm_num

/-- C3: in the listing cascade, the document is parsed as feed tier, then
HTML tier exactly when the feed tier yielded no items, then regex tier
exactly when the running count after tiers 1-2 is below 5; when the feed
tier yields items the anchor elements are irrelevant to the result, and
when the running count reaches 5 the regex urls are irrelevant. -/
theorem C3_cascade_triggers (doc : ListingDoc) (base dPref : String) (maxF : Nat) :
    parse_listing_document doc base dPref maxF =
      dedupCap maxF
        (if (tier12 doc base dPref maxF).length < 5 then
          regexTier doc (tier12 doc base dPref maxF) maxF
        else tier12 doc base dPref maxF) ∧
    (feedTier doc base maxF ≠ [] →
      tier12 doc base dPref maxF = feedTier doc base maxF ∧
      ∀ a1 a2 : List AnchorEl,
        parse_listing_document
            { doc with articleAnchors := a1, headingAnchors := a2 } base dPref maxF =
          parse_listing_document doc base dPref maxF) ∧
    (feedTier doc base maxF = [] →
      tier12 doc base dPref maxF = htmlTier doc base dPref maxF) ∧
    (5 ≤ (tier12 doc base dPref maxF).length →
      discovered doc base dPref maxF = tier12 doc base dPref maxF ∧
      ∀ rs : List String,
        parse_listing_document { doc with regexUrls := rs } base dPref maxF =
          parse_listing_document doc base dPref maxF) ∧
    ((tier12 doc base dPref maxF).length < 5 →
      discovered doc base dPref maxF = regexTier doc (tier12 doc base dPref maxF) maxF) := by
  refine ⟨rfl, ?_, ?_, ?_, ?_⟩
  · intro h1
    have ht : tier12 doc base dPref maxF = feedTier doc base maxF := by
      rw [tier12, if_neg h1]
    refine ⟨ht, fun a1 a2 => ?_⟩
    have hfeed : feedTier { doc with articleAnchors := a1, headingAnchors := a2 } base maxF =
        feedTier doc base maxF := rfl
    have hregex : ∀ acc : List ListingItem,
        regexTier { doc with articleAnchors := a1, headingAnchors := a2 } acc maxF =
          regexTier doc acc maxF := fun acc => rfl
    rw [parse_listing_document, parse_listing_document, discovered, discovered,
      tier12, tier12, hfeed, if_neg h1, if_neg h1, hregex]
  · intro h1
    rw [tier12, if_pos h1]
  · intro h5
    have hd : discovered doc base dPref maxF = tier12 doc base dPref maxF := by
      rw [discovered, if_neg (by omega)]
    refine ⟨hd, fun rs => ?_⟩
    have ht : tier12 { doc with regexUrls := rs } base dPref maxF =
        tier12 doc base dPref maxF := rfl
    rw [parse_listing_document, parse_listing_document, discovered, discovered, ht,
      if_neg (by omega), if_neg (by omega)]
  · intro h5
    rw [discovered, if_pos h5]

/-- Witness for C3: anchor irrelevance on a feed document and regex
irrelevance on a document whose HTML tier yields five items. -/
theorem C3_cascade_triggers_witness :
    parse_listing_document
        { cDocFeed with
          articleAnchors := [{ href := "http://f/z.html", text := "z", timeHint := "" }],
          headingAnchors := [] } "b" "" 10 =
      parse_listing_document cDocFeed "b" "" 10 ∧
    parse_listing_document { cDocHtml with regexUrls := ["http://h/zz.html"] } "b" "" 10 =
      parse_listing_document cDocHtml "b" "" 10 := by
  have h1 := C3_cascade_triggers cDocFeed "b" "" 10
  have h2 := C3_cascade_triggers cDocHtml "b" "" 10
  exact ⟨(h1.2.1 (by decide)).2 _ _, (h2.2.2.2.1 (by decide)).2 _⟩

/-- C4: a structured-metadata author object with a name yields its name, a
list of named objects yields the comma-joined names, unsupported shapes
yield the empty string; and when structured metadata supplies no author
but a meta tag name="author" has content "Jane Doe", the extracted author
is "Jane Doe". -/
theorem C4_author_normalization :
    (∀ n i : String, n ≠ "" → structuredAuthor (.obj n i) = n) ∧
    (∀ names : List String, (∀ x ∈ names, x ≠ "") →
      structuredAuthor (.arr (names.map (fun nm => JsonAuthor.obj nm ""))) =
        strIntercalate ", " names) ∧
    structuredAuthor .other = "" ∧
    structuredAuthor .absent = "" ∧
    (∀ (meta : JsonAuthor) (s : AuthorSoup), structuredAuthor meta = "" →
      s.metaAuthor = some "Jane Doe" → extract_article_author meta s = "Jane Doe") := by
  refine ⟨?_, ?_, rfl, rfl, ?_⟩
  · intro n i hn
    simp [structuredAuthor, pick_name, hn]
  · intro names hall
    have hmap : (names.map (fun nm => JsonAuthor.obj nm "")).map pick_name = names := by
      rw [List.map_map]
      apply List.map_id''
      intro nm
      by_cases hnm : nm = ""
      · simp [pick_name, hnm]
      · simp [pick_name, hnm]
    rw [structuredAuthor, hmap, List.filter_eq_self.mpr]
    intro x hx
    simpa using hall x hx
  · intro meta s hm hma
    rw [extract_article_author]
    simp only [hm, bne_self_eq_false]
    rw [htmlAuthor, hma]
    simp only [firstTruthy, strTrim, stripWs]
    simp
    intro h
    exact absurd h (by decide)

/-- Witness for C4: concrete author shapes and the end-to-end meta-tag
fallback. -/
theorem C4_author_normalization_witness :
    structuredAuthor (.obj "X" "Y") = "X" ∧
    structuredAuthor (.arr [.obj "Ana" "", .obj "Luis" ""]) = strIntercalate ", " ["Ana", "Luis"] ∧
    extract_article_author .absent
      { metaAuthor := some "Jane Doe", metaArticleAuthor := none, metaByl := none,
        metaDcCreator := none, metaParsely := none, byline := "" } = "Jane Doe" := by
  refine ⟨C4_author_normalization.1 "X" "Y" (by decide), ?_, ?_⟩
  · exact C4_author_normalization.2.1 ["Ana", "Luis"] (by decide)
  · exact C4_author_normalization.2.2.2.2 .absent _ rfl rfl

/-- C9: with no keywords configured, the seen-set check of the extraction
loop never excludes any url — the listing is the globally deduplicated
aggregate, the seen set starts as the empty `load_state`, and urls are
only added after their own iteration — so extraction is attempted for
exactly the deduplicated listing, in order. -/
theorem C9_seen_skip_vacuous (extractF : String → Option ArticleRecord)
    (recentF : String → Bool) (env : String → ListingDoc) (sources : List SourceCfg) :
    load_state = [] ∧
    (mainLoopNoKw extractF recentF (parse_all_listings env sources) load_state).skipped = [] ∧
    (mainLoopNoKw extractF recentF (parse_all_listings env sources) load_state).attempted =
      (parse_all_listings env sources).map (fun it => it.url) := by
  refine ⟨rfl, ?_, ?_⟩ <;>
  · have h := mainLoopNoKw_no_skip extractF recentF (parse_all_listings env sources) load_state
      ((dedupFirstAux_nodup (fun it : SourcedItem => it.url) (collectAll env sources) []).1)
      (fun it _ => by simp [load_state])
    first
    | exact h.1
    | exact h.2
